import Mathlib

/-!
Verification of the user-directory core of `golang-grpc-vs-http-benchmark`:
a shallow embedding of the in-memory user store (`internal/user`), the
directory service (`internal/service`), and the theorems checking the
specification's claims about them.

Go slices are modelled as Lean lists, the Go `map[string]User` as a list of
users keyed by their `ID` field (every write `s.users[id] = u` in the source
has `u.ID = id`), and `sort.Slice` as a sort with respect to the same
comparison function.  Machine integers (`int64 nextID`) are modelled as `Nat`:
the counter only ever increments by one per call, far below `2^63`.
-/

namespace GoUser

/-- Models Go `unicode.IsSpace` (the byte/rune class used by
`strings.TrimSpace`): '\t', '\n', '\v', '\f', '\r', ' ', U+0085, U+00A0,
and the Unicode White_Space code points. -/
def goIsSpace (c : Char) : Bool :=
  (9 ≤ c.toNat && c.toNat ≤ 13) || c.toNat = 32 || c.toNat = 0x85 || c.toNat = 0xA0 ||
  c.toNat = 0x1680 || (0x2000 ≤ c.toNat && c.toNat ≤ 0x200A) ||
  c.toNat = 0x2028 || c.toNat = 0x2029 || c.toNat = 0x202F ||
  c.toNat = 0x205F || c.toNat = 0x3000

/-- Models Go `strings.TrimSpace`: drop leading and trailing whitespace. -/
def trimSpace (s : String) : String :=
  ⟨((s.data.dropWhile goIsSpace).reverse.dropWhile goIsSpace).reverse⟩

/-- Models Go `strings.Contains(s, "@")`: a one-character substring is
present iff the character occurs in the string. -/
def containsAtSign (s : String) : Bool :=
  s.data.any (fun c => c = '@')

/-- Little-endian base-10 digits of `n`, with explicit fuel (`fuel ≥ n`
suffices).  Models the digit loop of Go `strconv.FormatInt(n, 10)`. -/
def toDigitsRev (fuel n : Nat) : List Nat :=
  match fuel, n with
  | _, 0 => []
  | 0, _ + 1 => []
  | f + 1, n + 1 => ((n + 1) % 10) :: toDigitsRev f ((n + 1) / 10)

/-- Models Go `strconv.FormatInt(n, 10)` for a non-negative `n`:
the decimal numeral of `n`. -/
def formatInt (n : Nat) : String :=
  if n = 0 then "0" else ⟨((toDigitsRev n n).map Nat.digitChar).reverse⟩

/-- Value of a little-endian digit list. -/
def ofDigitsLE : List Nat → Nat
  | [] => 0
  | d :: ds => d + 10 * ofDigitsLE ds

/-- Decimal decoding of a digit string (big-endian fold over its chars). -/
def decodeDec (s : String) : Nat :=
  s.data.foldl (fun acc c => 10 * acc + (c.toNat - 48)) 0

theorem ofDigitsLE_toDigitsRev (fuel : Nat) :
    ∀ n, n ≤ fuel → ofDigitsLE (toDigitsRev fuel n) = n := by
  induction fuel with
  | zero =>
    intro n hn
    interval_cases n
    rfl
  | succ f ih =>
    intro n hn
    match n with
    | 0 => rfl
    | m + 1 =>
      have hdiv : (m + 1) / 10 < m + 1 := Nat.div_lt_self (Nat.succ_pos m) (by omega)
      have hle : (m + 1) / 10 ≤ f := by omega
      simp only [toDigitsRev, ofDigitsLE, ih _ hle]
      omega

theorem toDigitsRev_lt_ten (fuel : Nat) :
    ∀ n d, d ∈ toDigitsRev fuel n → d < 10 := by
  induction fuel with
  | zero =>
    intro n d hd
    cases n <;> simp [toDigitsRev] at hd
  | succ f ih =>
    intro n d hd
    cases n with
    | zero => simp [toDigitsRev] at hd
    | succ m =>
      simp only [toDigitsRev, List.mem_cons] at hd
      rcases hd with h | h
      · omega
      · exact ih _ _ h

theorem digitChar_toNat (d : Nat) (hd : d < 10) : (Nat.digitChar d).toNat = 48 + d := by
  interval_cases d <;> rfl

theorem foldl_digits (ds : List Nat) (hd : ∀ d ∈ ds, d < 10) (acc : Nat) :
    ((ds.map Nat.digitChar).reverse).foldl (fun a c => 10 * a + (c.toNat - 48)) acc =
      ofDigitsLE ds + acc * 10 ^ ds.length := by
  induction ds generalizing acc with
  | nil => simp [ofDigitsLE]
  | cons d rest ih =>
    have hdd : d < 10 := hd d (List.mem_cons_self d rest)
    have hrest : ∀ e ∈ rest, e < 10 := fun e he => hd e (List.mem_cons_of_mem d he)
    simp only [List.map_cons, List.reverse_cons, List.foldl_append, List.foldl_cons,
      List.foldl_nil, ih hrest acc, ofDigitsLE, List.length_cons,
      digitChar_toNat d hdd]
    ring_nf
    omega

theorem decodeDec_formatInt (n : Nat) : decodeDec (formatInt n) = n := by
  by_cases h : n = 0
  · subst h; rfl
  · simp only [formatInt, if_neg h, decodeDec]
    have := foldl_digits (toDigitsRev n n) (toDigitsRev_lt_ten n n) 0
    simpa [ofDigitsLE_toDigitsRev n n (Nat.le_refl n)] using this

theorem formatInt_injective {a b : Nat} (h : formatInt a = formatInt b) : a = b := by
  have ha := decodeDec_formatInt a
  have hb := decodeDec_formatInt b
  rw [h] at ha
  omega

theorem digitChar_not_space (d : Nat) (hd : d < 10) :
    goIsSpace (Nat.digitChar d) = false := by
  interval_cases d <;> rfl

theorem formatInt_chars_not_space (n : Nat) :
    ∀ c ∈ (formatInt n).data, goIsSpace c = false := by
  intro c hc
  by_cases h : n = 0
  · subst h
    simp only [formatInt, if_pos rfl] at hc
    have : c = '0' := by
      simpa [String.data] using hc
    subst this; rfl
  · simp only [formatInt, if_neg h, List.mem_reverse, List.mem_map] at hc
    obtain ⟨d, hd, hdc⟩ := hc
    subst hdc
    exact digitChar_not_space d (toDigitsRev_lt_ten n n d hd)

theorem formatInt_ne_empty (n : Nat) : formatInt n ≠ "" := by
  by_cases h : n = 0
  · subst h; simp [formatInt]
  · simp only [formatInt, if_neg h]
    intro hcontra
    have hdata : ((toDigitsRev n n).map Nat.digitChar).reverse = [] := by
      have := congrArg String.data hcontra
      simpa using this
    have hnil : toDigitsRev n n = [] := by
      simpa using hdata
    match hn : n, h with
    | m + 1, _ =>
      simp [toDigitsRev] at hnil

theorem dropWhile_eq_self_of_not (p : Char → Bool) (l : List Char)
    (h : ∀ c ∈ l, p c = false) : l.dropWhile p = l := by
  cases l with
  | nil => rfl
  | cons c cs =>
    rw [List.dropWhile_cons_of_neg]
    simp [h c (List.mem_cons_self c cs)]

theorem trimSpace_of_no_space (s : String)
    (h : ∀ c ∈ s.data, goIsSpace c = false) : trimSpace s = s := by
  unfold trimSpace
  rw [dropWhile_eq_self_of_not _ _ h]
  rw [dropWhile_eq_self_of_not _ _ (fun c hc => h c (List.mem_reverse.mp hc))]
  cases s
  simp

theorem trimSpace_formatInt (n : Nat) : trimSpace (formatInt n) = formatInt n :=
  trimSpace_of_no_space _ (formatInt_chars_not_space n)

/-- Lexicographic comparison of char lists by code point.  Models Go's
built-in string `<`, which compares UTF-8 byte sequences; byte-wise order of
UTF-8 encodings coincides with code-point order. -/
def chlt : List Char → List Char → Bool
  | _, [] => false
  | [], _ :: _ => true
  | a :: as, b :: bs => if a < b then true else if a = b then chlt as bs else false

/-- Models the Go expression `a < b` on strings. -/
def goStrLt (a b : String) : Bool :=
  chlt a.data b.data

theorem chlt_asymm : ∀ {a b : List Char}, chlt a b = true → chlt b a = true → False
  | _ :: _, [], h, _ => by simp [chlt] at h
  | [], [], h, _ => by simp [chlt] at h
  | [], _ :: _, _, h => by simp [chlt] at h
  | a :: as, b :: bs, h, h' => by
    simp only [chlt] at h h'
    by_cases hab : a < b
    · by_cases hba : b < a
      · exact absurd hba (lt_asymm hab)
      · rw [if_neg hba] at h'
        by_cases hbe : b = a
        · subst hbe; exact absurd hab (lt_irrefl b)
        · rw [if_neg hbe] at h'; exact Bool.false_ne_true h'
    · rw [if_neg hab] at h
      by_cases hae : a = b
      · subst hae
        rw [if_pos rfl] at h
        rw [if_neg (lt_irrefl a), if_pos rfl] at h'
        exact chlt_asymm h h'
      · rw [if_neg hae] at h; exact Bool.false_ne_true h

theorem chlt_connex : ∀ {a b : List Char}, chlt a b = false → chlt b a = false → a = b
  | [], [], _, _ => rfl
  | [], _ :: _, h, _ => by simp [chlt] at h
  | _ :: _, [], _, h => by simp [chlt] at h
  | a :: as, b :: bs, h, h' => by
    simp only [chlt] at h h'
    by_cases hab : a < b
    · rw [if_pos hab] at h; exact absurd h (by simp)
    · by_cases hba : b < a
      · rw [if_pos hba] at h'; exact absurd h' (by simp)
      · have hae : a = b := le_antisymm (not_lt.mp hba) (not_lt.mp hab)
        subst hae
        rw [if_neg (lt_irrefl a), if_pos rfl] at h h'
        rw [chlt_connex h h']

theorem chlt_trans : ∀ {a b c : List Char},
    chlt a b = true → chlt b c = true → chlt a c = true
  | _, [], _, h, _ => by simp [chlt] at h
  | _, _ :: _, [], _, h => by simp [chlt] at h
  | [], _ :: _, _ :: _, _, _ => by simp [chlt]
  | a :: as, b :: bs, c :: cs, h, h' => by
    simp only [chlt] at h h' ⊢
    by_cases hab : a < b
    · by_cases hbc : b < c
      · rw [if_pos (lt_trans hab hbc)]
      · rw [if_neg hbc] at h'
        by_cases hbe : b = c
        · subst hbe; rw [if_pos hab]
        · rw [if_neg hbe] at h'; exact absurd h' (by simp)
    · rw [if_neg hab] at h
      by_cases hae : a = b
      · subst hae
        rw [if_pos rfl] at h
        by_cases hac : a < c
        · rw [if_pos hac]
        · rw [if_neg hac] at h' ⊢
          by_cases hce : a = c
          · subst hce
            rw [if_pos rfl] at h' ⊢
            exact chlt_trans h h'
          · rw [if_neg hce] at h'; exact absurd h' (by simp)
      · rw [if_neg hae] at h; exact absurd h (by simp)

theorem goStrLt_asymm {a b : String} (h : goStrLt a b = true)
    (h' : goStrLt b a = true) : False :=
  chlt_asymm h h'

theorem goStrLt_connex {a b : String} (h : goStrLt a b = false)
    (h' : goStrLt b a = false) : a = b := by
  cases a; cases b
  exact congrArg String.mk (chlt_connex h h')

theorem goStrLt_trans {a b c : String} (h : goStrLt a b = true)
    (h' : goStrLt b c = true) : goStrLt a c = true :=
  chlt_trans h h'

/-- The attribute bundle of a user (`internal/user/user.go`, `Attributes`).
`Tags []string` and `Avatar []byte` are modelled by value as lists. -/
structure Attributes where
  name : String
  email : String
  phone : String
  address : String
  bio : String
  tags : List String
  avatar : List Nat
deriving DecidableEq, Repr

/-- A user record (`internal/user/user.go`, `User`): an identifier plus an
embedded attribute bundle. -/
structure User where
  id : String
  attrs : Attributes
deriving DecidableEq, Repr

/-- Models `cloneAttributes` from `internal/user/store.go`.  On values the
defensive copy of the tag and avatar slices is the identity; the aliasing
content of the copy is analysed separately in the heap model below. -/
def cloneAttributes (attrs : Attributes) : Attributes :=
  attrs

/-- The in-memory store (`internal/user/store.go`, `Store`): the
`map[string]User` keyed by id is modelled as a list of users keyed by their
`id` field, in unspecified order; `nextID int64` as a `Nat`. -/
structure Store where
  users : List User
  nextID : Nat
deriving DecidableEq, Repr

/-- `map[string]User` lookup `s.users[id]`. -/
def mapLookup (id : String) : List User → Option User
  | [] => none
  | v :: vs => if v.id = id then some v else mapLookup id vs

/-- `map[string]User` write `s.users[id] = u` (with `u.id = id`): replace the
entry with that key, or add the entry when the key is absent. -/
def mapInsert (u : User) : List User → List User
  | [] => [u]
  | v :: vs => if v.id = u.id then u :: vs else v :: mapInsert u vs

/-- `delete(s.users, id)`: remove the entry with the given key, if any. -/
def mapErase (id : String) : List User → List User
  | [] => []
  | v :: vs => if v.id = id then vs else v :: mapErase id vs

/-- `NewStore()`: empty map, counter at zero. -/
def Store.emptyStore : Store :=
  ⟨[], 0⟩

/-- `Store.Create`: increment the counter, format it as the new id, store a
defensive copy of the attributes under it, return the new record. -/
def Store.create (s : Store) (attrs : Attributes) : User × Store :=
  let n := s.nextID + 1
  let id := formatInt n
  let u : User := ⟨id, cloneAttributes attrs⟩
  (u, ⟨mapInsert u s.users, n⟩)

/-- `Store.Get`: map lookup, no mutation. -/
def Store.get (s : Store) (id : String) : Option User :=
  mapLookup id s.users

/-- `Store.Update`: `ErrNotFound` (here `none`) and an unchanged store if the
id is absent; otherwise replace the stored record wholesale. -/
def Store.update (s : Store) (id : String) (attrs : Attributes) :
    Option User × Store :=
  match mapLookup id s.users with
  | none => (none, s)
  | some _ =>
    let u : User := ⟨id, cloneAttributes attrs⟩
    (some u, ⟨mapInsert u s.users, s.nextID⟩)

/-- `Store.Delete`: report whether the id existed, removing it if so. -/
def Store.delete (s : Store) (id : String) : Bool × Store :=
  match mapLookup id s.users with
  | none => (false, s)
  | some _ => (true, ⟨mapErase id s.users, s.nextID⟩)

/-- The ordering established by a `sort.Slice` call with less function
`users[i].ID < users[j].ID`: `a` may precede `b` iff `¬ (b.ID < a.ID)`. -/
def userLe (a b : User) : Prop :=
  goStrLt b.id a.id = false

/-- Strict ascending id order between records. -/
def userLt (a b : User) : Prop :=
  goStrLt a.id b.id = true

instance : DecidableRel userLe := fun a b => by unfold userLe; infer_instance

instance : DecidableRel userLt := fun a b => by unfold userLt; infer_instance

/-- `Store.List`: `nil` for an empty map; otherwise the records sorted with
`sort.Slice(users, func(i, j) { users[i].ID < users[j].ID })`.  `sort.Slice`
is modelled as a sort with respect to the same comparison; record ids are
pairwise distinct, so every such sort yields this unique result. -/
def Store.list (s : Store) : List User :=
  if s.users.isEmpty then []
  else s.users.insertionSort userLe

/-- One store call, as issued by some caller. -/
inductive Op where
  | create (attrs : Attributes)
  | update (id : String) (attrs : Attributes)
  | delete (id : String)
deriving DecidableEq, Repr

/-- The store state after one call (results discarded). -/
def applyOp (s : Store) : Op → Store
  | .create attrs => (s.create attrs).2
  | .update id attrs => (s.update id attrs).2
  | .delete id => (s.delete id).2

/-- The store state after a sequence of calls. -/
def applyOps (s : Store) (ops : List Op) : Store :=
  ops.foldl applyOp s

/-- The identifiers of the records returned by the `create` calls of a run,
in call order. -/
def mintedIds (s : Store) : List Op → List String
  | [] => []
  | .create attrs :: rest =>
    (s.create attrs).1.id :: mintedIds (s.create attrs).2 rest
  | op :: rest => mintedIds (applyOp s op) rest

/-- The number of `create` calls in a run. -/
def countCreates (ops : List Op) : Nat :=
  ops.countP (fun op => match op with | .create _ => true | _ => false)

/-- The service error taxonomy (`internal/service/user_service.go`):
`ErrInvalidInput` wrapped with a detail message, or `user.ErrNotFound`
surfaced from the store. -/
inductive ServiceError where
  | invalidInput (msg : String)
  | notFound
deriving DecidableEq, Repr

/-- Models `normalizeAttributes`: trim name, email, phone, address, bio;
when the tag slice is non-empty, trim each tag and drop the ones that become
empty. -/
def normalizeAttributes (attrs : Attributes) : Attributes :=
  { attrs with
    name := trimSpace attrs.name
    email := trimSpace attrs.email
    phone := trimSpace attrs.phone
    address := trimSpace attrs.address
    bio := trimSpace attrs.bio
    tags :=
      if attrs.tags.length > 0 then
        (attrs.tags.map trimSpace).filter (fun t => t ≠ "")
      else attrs.tags }

/-- Models `validatePayload`: empty name, then empty or `@`-less email. -/
def validatePayload (attrs : Attributes) : Option ServiceError :=
  if attrs.name = "" then some (.invalidInput "name is required")
  else if attrs.email = "" ∨ containsAtSign attrs.email = false then
    some (.invalidInput "email must contain '@'")
  else none

/-- Models `validateIdentifier`: the id must be non-empty after trimming. -/
def validateIdentifier (id : String) : Option ServiceError :=
  if trimSpace id = "" then some (.invalidInput "id is required") else none

namespace Service

/-- Models `Service.Create`: normalize, validate, delegate to the store. -/
def create (s : Store) (attrs : Attributes) : Except ServiceError User × Store :=
  let clean := normalizeAttributes attrs
  match validatePayload clean with
  | some e => (.error e, s)
  | none =>
    let (u, s') := s.create clean
    (.ok u, s')

/-- Models `Service.Get`: validate the id, then look it up verbatim;
absence becomes `notFound`. -/
def get (s : Store) (id : String) : Except ServiceError User :=
  match validateIdentifier id with
  | some e => .error e
  | none =>
    match s.get id with
    | some u => .ok u
    | none => .error .notFound

/-- Models `Service.Update`: validate the id, normalize and validate the
payload, then delegate to the store; store absence becomes `notFound`. -/
def update (s : Store) (id : String) (attrs : Attributes) :
    Except ServiceError User × Store :=
  match validateIdentifier id with
  | some e => (.error e, s)
  | none =>
    let clean := normalizeAttributes attrs
    match validatePayload clean with
    | some e => (.error e, s)
    | none =>
      match s.update id clean with
      | (none, s') => (.error .notFound, s')
      | (some u, s') => (.ok u, s')

/-- Models `Service.Delete`: validate the id, then delegate; a `false`
report from the store becomes `notFound`. -/
def delete (s : Store) (id : String) : Except ServiceError Unit × Store :=
  match validateIdentifier id with
  | some e => (.error e, s)
  | none =>
    match s.delete id with
    | (false, s') => (.error .notFound, s')
    | (true, s') => (.ok (), s')

/-- Models the gRPC wrapper `Service.GetUser`, which calls
`s.Get(ctx, strings.TrimSpace(req.GetId()))`. -/
def getUser (s : Store) (rawId : String) : Except ServiceError User :=
  get s (trimSpace rawId)

/-- Models the gRPC wrapper `Service.UpdateUser`, which calls
`s.Update(ctx, strings.TrimSpace(req.GetId()), attrs)`. -/
def updateUser (s : Store) (rawId : String) (attrs : Attributes) :
    Except ServiceError User × Store :=
  update s (trimSpace rawId) attrs

/-- Models the gRPC wrapper `Service.DeleteUser`, which calls
`s.Delete(ctx, strings.TrimSpace(req.GetId()))`. -/
def deleteUser (s : Store) (rawId : String) : Except ServiceError Unit × Store :=
  delete s (trimSpace rawId)

end Service

/-- The keys of the modelled map are pairwise distinct (invariant of every
Go `map`). -/
def idsNodup (l : List User) : Prop :=
  (l.map User.id).Nodup

instance (l : List User) : Decidable (idsNodup l) := by
  unfold idsNodup; infer_instance

theorem mapLookup_insert_self (u : User) (l : List User) :
    mapLookup u.id (mapInsert u l) = some u := by
  induction l with
  | nil => simp [mapInsert, mapLookup]
  | cons v vs ih =>
    by_cases h : v.id = u.id
    · simp [mapInsert, h, mapLookup]
    · simp [mapInsert, h, mapLookup, ih]

theorem mapLookup_insert_ne (u : User) (id : String) (l : List User)
    (h : id ≠ u.id) : mapLookup id (mapInsert u l) = mapLookup id l := by
  have hne : ¬ u.id = id := fun hh => h hh.symm
  induction l with
  | nil => simp [mapInsert, mapLookup, hne]
  | cons v vs ih =>
    by_cases hv : v.id = u.id
    · have hv2 : ¬ v.id = id := by rw [hv]; exact hne
      simp only [mapInsert, if_pos hv, mapLookup, if_neg hne, if_neg hv2]
    · by_cases hv2 : v.id = id
      · simp only [mapInsert, if_neg hv, mapLookup, if_pos hv2]
      · simp only [mapInsert, if_neg hv, mapLookup, if_neg hv2, ih]

theorem mapLookup_erase_ne (id id2 : String) (l : List User)
    (h : id2 ≠ id) : mapLookup id2 (mapErase id l) = mapLookup id2 l := by
  induction l with
  | nil => simp [mapErase, mapLookup]
  | cons v vs ih =>
    by_cases hv : v.id = id
    · have hv2 : ¬ v.id = id2 := by rw [hv]; exact fun hh => h hh.symm
      simp only [mapErase, if_pos hv, mapLookup, if_neg hv2]
    · by_cases hv2 : v.id = id2
      · simp only [mapErase, if_neg hv, mapLookup, if_pos hv2]
      · simp only [mapErase, if_neg hv, mapLookup, if_neg hv2, ih]

theorem mapLookup_id_of_mem {l : List User} {u : User} (h : mapLookup u.id l = some u) :
    u ∈ l := by
  induction l with
  | nil => simp [mapLookup] at h
  | cons v vs ih =>
    by_cases hv : v.id = u.id
    · simp only [mapLookup, if_pos hv] at h
      exact (Option.some_inj.mp h) ▸ List.mem_cons_self v vs
    · simp only [mapLookup, if_neg hv] at h
      exact List.mem_cons_of_mem v (ih h)

theorem mapLookup_eq_none_of_not_mem (id : String) (l : List User)
    (h : ∀ v ∈ l, v.id ≠ id) : mapLookup id l = none := by
  induction l with
  | nil => rfl
  | cons v vs ih =>
    simp only [mapLookup, if_neg (h v (List.mem_cons_self v vs))]
    exact ih fun w hw => h w (List.mem_cons_of_mem v hw)

theorem mem_mapInsert {x u : User} {l : List User} (hx : x ∈ mapInsert u l) :
    x = u ∨ x ∈ l := by
  induction l with
  | nil =>
    simp only [mapInsert, List.mem_singleton] at hx
    exact Or.inl hx
  | cons v vs ih =>
    by_cases hv : v.id = u.id
    · simp only [mapInsert, if_pos hv, List.mem_cons] at hx
      rcases hx with hx | hx
      · exact Or.inl hx
      · exact Or.inr (List.mem_cons_of_mem v hx)
    · simp only [mapInsert, if_neg hv, List.mem_cons] at hx
      rcases hx with hx | hx
      · exact Or.inr (hx ▸ List.mem_cons_self v vs)
      · rcases ih hx with h1 | h1
        · exact Or.inl h1
        · exact Or.inr (List.mem_cons_of_mem v h1)

theorem mapLookup_erase_self (id : String) (l : List User)
    (h : idsNodup l) : mapLookup id (mapErase id l) = none := by
  induction l with
  | nil => rfl
  | cons v vs ih =>
    unfold idsNodup at h
    have hhead : v.id ∉ vs.map User.id := (List.nodup_cons.mp h).1
    have htail : idsNodup vs := (List.nodup_cons.mp h).2
    by_cases hv : v.id = id
    · simp only [mapErase, if_pos hv]
      refine mapLookup_eq_none_of_not_mem id vs fun w hw hwid => ?_
      exact hhead (List.mem_map.mpr ⟨w, hw, by rw [hwid, hv]⟩)
    · simp [mapErase, hv, mapLookup, ih htail]

theorem idsNodup_insert (u : User) (l : List User) (h : idsNodup l) :
    idsNodup (mapInsert u l) := by
  induction l with
  | nil => simp [mapInsert, idsNodup]
  | cons v vs ih =>
    unfold idsNodup at h
    have hhead : v.id ∉ vs.map User.id := (List.nodup_cons.mp h).1
    have htail : idsNodup vs := (List.nodup_cons.mp h).2
    by_cases hv : v.id = u.id
    · unfold idsNodup
      simp only [mapInsert, if_pos hv, List.map_cons, List.nodup_cons]
      exact ⟨hv ▸ hhead, htail⟩
    · unfold idsNodup
      simp only [mapInsert, if_neg hv, List.map_cons, List.nodup_cons]
      refine ⟨?_, ih htail⟩
      intro hmem
      obtain ⟨x, hx, hxid⟩ := List.mem_map.mp hmem
      rcases mem_mapInsert hx with h1 | h1
      · exact hv (by rw [← hxid, h1])
      · exact hhead (List.mem_map.mpr ⟨x, h1, hxid⟩)

theorem mem_mapErase_sublist (id : String) (l : List User) :
    (mapErase id l).Sublist l := by
  induction l with
  | nil => simp [mapErase]
  | cons v vs ih =>
    by_cases hv : v.id = id
    · simp only [mapErase, if_pos hv]
      exact List.sublist_cons_of_sublist v (List.Sublist.refl vs)
    · simp only [mapErase, if_neg hv]
      exact List.Sublist.cons₂ v ih

theorem idsNodup_erase (id : String) (l : List User) (h : idsNodup l) :
    idsNodup (mapErase id l) := by
  unfold idsNodup at h ⊢
  exact List.Nodup.sublist (List.Sublist.map User.id (mem_mapErase_sublist id l)) h

instance : IsTotal User userLe where
  total a b := by
    unfold userLe
    by_cases h : goStrLt b.id a.id = false
    · exact Or.inl h
    · refine Or.inr ?_
      by_cases h2 : goStrLt a.id b.id = false
      · exact h2
      · exact absurd (goStrLt_asymm (Bool.not_eq_false _ ▸ h2 : _)
          (Bool.not_eq_false _ ▸ h : _)) id

instance : IsTrans User userLe where
  trans a b c hab hbc := by
    unfold userLe at hab hbc ⊢
    by_cases hca : goStrLt c.id a.id = false
    · exact hca
    · have hca2 : goStrLt c.id a.id = true := by
        cases h : goStrLt c.id a.id
        · exact absurd h hca
        · rfl
      by_cases hba : goStrLt a.id b.id = true
      · have : goStrLt c.id b.id = true := goStrLt_trans hca2 hba
        rw [this] at hbc
        exact absurd hbc (by simp)
      · have hba2 : goStrLt a.id b.id = false := by
          cases h : goStrLt a.id b.id
          · rfl
          · exact absurd h hba
        have hid : a.id = b.id := goStrLt_connex hba2 hab
        rw [← hid] at hbc
        rw [hca2] at hbc
        exact absurd hbc (by simp)

instance : IsAntisymm User userLt where
  antisymm _ _ hab hba := absurd (goStrLt_asymm hab hba) id

theorem userLt_of_userLe_of_ne {a b : User} (hle : userLe a b)
    (hne : a.id ≠ b.id) : userLt a b := by
  unfold userLe at hle
  unfold userLt
  cases h : goStrLt a.id b.id
  · exact absurd (goStrLt_connex h hle) hne
  · rfl

theorem list_perm_users (s : Store) : List.Perm (Store.list s) s.users := by
  unfold Store.list
  by_cases h : s.users.isEmpty
  · rw [if_pos h]
    rw [List.isEmpty_iff] at h
    rw [h]
  · rw [if_neg h]
    exact List.perm_insertionSort userLe s.users

theorem list_sorted_le (s : Store) : (Store.list s).Sorted userLe := by
  unfold Store.list
  by_cases h : s.users.isEmpty
  · rw [if_pos h]; exact List.sorted_nil
  · rw [if_neg h]
    exact List.sorted_insertionSort userLe s.users

theorem pairwise_ne_of_idsNodup {l : List User} (h : idsNodup l) :
    l.Pairwise (fun a b => a.id ≠ b.id) := by
  unfold idsNodup at h
  exact (List.pairwise_map.mp h)

theorem sorted_lt_of_sorted_le {l : List User} (hs : l.Sorted userLe)
    (hnd : idsNodup l) : l.Sorted userLt := by
  have hne := pairwise_ne_of_idsNodup hnd
  exact List.Pairwise.imp₂ (fun a b hle hab => userLt_of_userLe_of_ne hle hab) hs hne

theorem idsNodup_of_perm {l l' : List User} (h : List.Perm l l')
    (hnd : idsNodup l) : idsNodup l' :=
  (List.Perm.nodup_iff (List.Perm.map User.id h)).mp hnd

theorem list_sorted_lt (s : Store) (h : idsNodup s.users) :
    (Store.list s).Sorted userLt :=
  sorted_lt_of_sorted_le (list_sorted_le s)
    (idsNodup_of_perm (list_perm_users s).symm h)

theorem list_indep_of_perm (s : Store) (h : idsNodup s.users)
    (l' : List User) (hp : List.Perm l' s.users) :
    Store.list ⟨l', s.nextID⟩ = Store.list s := by
  by_cases he : s.users.isEmpty
  · rw [List.isEmpty_iff] at he
    have hl' : l' = [] := List.Perm.eq_nil (he ▸ hp)
    unfold Store.list
    simp [he, hl']
  · have hl' : ¬ (l' : List User).isEmpty := by
      rw [List.isEmpty_iff] at he ⊢
      intro hcon
      exact he (List.Perm.eq_nil (hcon ▸ hp.symm))
    have hnd' : idsNodup l' := idsNodup_of_perm hp.symm h
    have hperm : List.Perm (Store.list ⟨l', s.nextID⟩) (Store.list s) := by
      refine List.Perm.trans (list_perm_users ⟨l', s.nextID⟩) ?_
      exact List.Perm.trans hp (list_perm_users s).symm
    exact List.eq_of_perm_of_sorted hperm
      (list_sorted_lt ⟨l', s.nextID⟩ hnd') (list_sorted_lt s h)

theorem idsNodup_applyOp (s : Store) (op : Op) (h : idsNodup s.users) :
    idsNodup (applyOp s op).users := by
  cases op with
  | create attrs =>
    exact idsNodup_insert _ _ h
  | update id attrs =>
    cases hl : mapLookup id s.users with
    | none => simpa [applyOp, Store.update, hl] using h
    | some u => simpa [applyOp, Store.update, hl] using idsNodup_insert _ _ h
  | delete id =>
    cases hl : mapLookup id s.users with
    | none => simpa [applyOp, Store.delete, hl] using h
    | some u => simpa [applyOp, Store.delete, hl] using idsNodup_erase id _ h

theorem idsNodup_applyOps (ops : List Op) :
    ∀ s : Store, idsNodup s.users → idsNodup (applyOps s ops).users := by
  induction ops with
  | nil => intro s h; exact h
  | cons op rest ih =>
    intro s h
    exact ih (applyOp s op) (idsNodup_applyOp s op h)

theorem idsNodup_run (ops : List Op) :
    idsNodup (applyOps Store.emptyStore ops).users :=
  idsNodup_applyOps ops Store.emptyStore (by simp [Store.emptyStore, idsNodup])

theorem nextID_applyOp_update (s : Store) (id : String) (attrs : Attributes) :
    (applyOp s (.update id attrs)).nextID = s.nextID := by
  cases hl : mapLookup id s.users <;> simp [applyOp, Store.update, hl]

theorem nextID_applyOp_delete (s : Store) (id : String) :
    (applyOp s (.delete id)).nextID = s.nextID := by
  cases hl : mapLookup id s.users <;> simp [applyOp, Store.delete, hl]

theorem mintedIds_eq (ops : List Op) :
    ∀ s : Store, mintedIds s ops =
      (List.range (countCreates ops)).map (fun i => formatInt (s.nextID + 1 + i)) := by
  induction ops with
  | nil => intro s; rfl
  | cons op rest ih =>
    intro s
    cases op with
    | create attrs =>
      have hcount : countCreates (Op.create attrs :: rest) = countCreates rest + 1 := by
        simp [countCreates]
      rw [hcount, List.range_succ_eq_map]
      have hnext : (s.create attrs).2.nextID = s.nextID + 1 := rfl
      have hhead : (s.create attrs).1.id = formatInt (s.nextID + 1) := rfl
      show (s.create attrs).1.id :: mintedIds (s.create attrs).2 rest = _
      rw [hhead, ih (s.create attrs).2, hnext]
      simp only [List.map_cons, List.map_map]
      refine congrArg₂ _ (by rw [Nat.add_zero]) ?_
      refine List.map_congr_left fun i _ => ?_
      show formatInt (s.nextID + 1 + 1 + i) = formatInt (s.nextID + 1 + (i + 1))
      exact congrArg formatInt (by omega)
    | update id attrs =>
      have hcount : countCreates (Op.update id attrs :: rest) = countCreates rest := by
        simp [countCreates]
      rw [hcount]
      show mintedIds (applyOp s (.update id attrs)) rest = _
      rw [ih (applyOp s (.update id attrs)), nextID_applyOp_update]
    | delete id =>
      have hcount : countCreates (Op.delete id :: rest) = countCreates rest := by
        simp [countCreates]
      rw [hcount]
      show mintedIds (applyOp s (.delete id)) rest = _
      rw [ih (applyOp s (.delete id)), nextID_applyOp_delete]

deriving instance DecidableEq for Except

/-- Sample attribute bundle used by concrete witnesses. -/
def adaAttrs : Attributes :=
  ⟨"Ada", "ada@example.com", "", "", "", [], []⟩

/-- Second sample attribute bundle used by concrete witnesses. -/
def graceAttrs : Attributes :=
  ⟨"Grace", "grace@example.com", "", "", "", [], []⟩

/-- C1: after any sequence of create/update/delete operations, `List` returns
every record currently in the store (a permutation of the store's contents),
sorted in strictly ascending identifier order; the result is the same for any
internal storage order of the same records, and it is the empty sequence when
the store holds nothing. -/
theorem claim_C1_list_sorted_complete (ops : List Op) :
    List.Perm (Store.list (applyOps Store.emptyStore ops))
      (applyOps Store.emptyStore ops).users ∧
    (Store.list (applyOps Store.emptyStore ops)).Sorted userLt ∧
    ((applyOps Store.emptyStore ops).users = [] →
      Store.list (applyOps Store.emptyStore ops) = []) ∧
    (∀ l', List.Perm l' (applyOps Store.emptyStore ops).users →
      Store.list ⟨l', (applyOps Store.emptyStore ops).nextID⟩ =
        Store.list (applyOps Store.emptyStore ops)) := by
  have hnd := idsNodup_run ops
  refine ⟨list_perm_users _, list_sorted_lt _ hnd, ?_,
    fun l' hp => list_indep_of_perm _ hnd l' hp⟩
  intro h
  unfold Store.list
  simp [h]

/-- Witness for C1 at a concrete run: two creates, with the internal order of
the two stored records reversed. -/
theorem claim_C1_witness :
    List.Perm (Store.list (applyOps Store.emptyStore [Op.create adaAttrs, Op.create graceAttrs]))
      (applyOps Store.emptyStore [Op.create adaAttrs, Op.create graceAttrs]).users ∧
    Store.list ⟨[⟨"2", graceAttrs⟩, ⟨"1", adaAttrs⟩], 2⟩ =
      Store.list (applyOps Store.emptyStore [Op.create adaAttrs, Op.create graceAttrs]) := by
  refine ⟨(claim_C1_list_sorted_complete [Op.create adaAttrs, Op.create graceAttrs]).1, ?_⟩
  exact (claim_C1_list_sorted_complete [Op.create adaAttrs, Op.create graceAttrs]).2.2.2
    [⟨"2", graceAttrs⟩, ⟨"1", adaAttrs⟩] (by decide)

/-- C2: across any sequence of store operations, the identifiers handed out
by `Create` are pairwise distinct (never reused, also after deletions) and
strictly increasing in their decimal value from call to call. -/
theorem claim_C2_ids_unique_increasing (ops : List Op) :
    (mintedIds Store.emptyStore ops).Nodup ∧
    (mintedIds Store.emptyStore ops).Pairwise
      (fun a b => decodeDec a < decodeDec b) := by
  have h := mintedIds_eq ops Store.emptyStore
  have hlt : (mintedIds Store.emptyStore ops).Pairwise
      (fun a b => decodeDec a < decodeDec b) := by
    rw [h]
    refine List.pairwise_map.mpr ?_
    refine List.Pairwise.imp ?_ (List.pairwise_lt_range _)
    intro i j hij
    rw [decodeDec_formatInt, decodeDec_formatInt]
    omega
  refine ⟨?_, hlt⟩
  refine List.Pairwise.imp ?_ hlt
  intro a b hab
  intro heq
  rw [heq] at hab
  exact lt_irrefl _ hab

/-- C10: in any run, the identifiers minted by the successive `Create` calls
are exactly the decimal numerals "1", "2", ... of the create-call count so
far — consecutive, starting at "1", never influenced by interleaved updates
or deletes — and no identifier is ever minted twice. -/
theorem claim_C10_ids_decimal_consecutive (ops : List Op) :
    mintedIds Store.emptyStore ops =
      (List.range (countCreates ops)).map (fun i => formatInt (i + 1)) ∧
    (mintedIds Store.emptyStore ops).Nodup := by
  constructor
  · rw [mintedIds_eq]
    have h0 : Store.emptyStore.nextID = 0 := rfl
    rw [h0]
    exact List.map_congr_left fun i _ => congrArg formatInt (by omega)
  · have h := mintedIds_eq ops Store.emptyStore
    rw [h]
    refine List.Nodup.map ?_ (List.nodup_range _)
    intro i j hij
    have := congrArg decodeDec hij
    rw [decodeDec_formatInt, decodeDec_formatInt] at this
    omega

/-- Attribute bundle with surrounding whitespace, used to exercise
normalization in witnesses. -/
def paddedAttrs : Attributes :=
  ⟨" Ada ", " ada@example.com ", " 555 ", " 1 Main St ", " hi ", [" x ", "  "], [1, 2]⟩

/-- C3: for every attribute bundle whose normalized form passes validation,
the service's `Create` succeeds and a `Get` on the identifier of the returned
record yields that record, whose attribute bundle is the normalized form of
the input bundle. -/
theorem claim_C3_create_get_roundtrip (s : Store) (attrs : Attributes)
    (h : validatePayload (normalizeAttributes attrs) = none) :
    ∃ u s2, Service.create s attrs = (Except.ok u, s2) ∧
      Service.get s2 u.id = Except.ok u ∧
      u.attrs = normalizeAttributes attrs := by
  refine ⟨⟨formatInt (s.nextID + 1), normalizeAttributes attrs⟩,
    ⟨mapInsert ⟨formatInt (s.nextID + 1), normalizeAttributes attrs⟩ s.users, s.nextID + 1⟩,
    ?_, ?_, rfl⟩
  · simp only [Service.create, h, Store.create, cloneAttributes]
  · have hval : validateIdentifier (formatInt (s.nextID + 1)) = none := by
      unfold validateIdentifier
      rw [trimSpace_formatInt]
      exact if_neg (formatInt_ne_empty _)
    simp only [Service.get, hval, Store.get]
    rw [mapLookup_insert_self ⟨formatInt (s.nextID + 1), normalizeAttributes attrs⟩]

/-- Witness for C3: a concrete bundle with whitespace-padded fields and an
empty-after-trim tag, created in the empty store. -/
theorem claim_C3_witness :
    validatePayload (normalizeAttributes paddedAttrs) = none ∧
    (∃ u s2, Service.create Store.emptyStore paddedAttrs = (Except.ok u, s2) ∧
      Service.get s2 u.id = Except.ok u ∧
      u.attrs = normalizeAttributes paddedAttrs) :=
  ⟨by decide, claim_C3_create_get_roundtrip Store.emptyStore paddedAttrs (by decide)⟩

/-- C4 counterexample: with the record "1" stored, the service's own `Get`,
`Update` and `Delete` called with the identifier " 1" — which differs from
"1" only by surrounding whitespace — pass validation but report NotFound
instead of resolving to the record: the service does not trim the id before
the store lookup. -/
theorem claim_C4_counterexample :
    trimSpace " 1" = "1" ∧
    Store.get (Service.create Store.emptyStore adaAttrs).2 "1" = some ⟨"1", adaAttrs⟩ ∧
    Service.get (Service.create Store.emptyStore adaAttrs).2 " 1" =
      Except.error ServiceError.notFound ∧
    (Service.update (Service.create Store.emptyStore adaAttrs).2 " 1" graceAttrs).1 =
      Except.error ServiceError.notFound ∧
    (Service.delete (Service.create Store.emptyStore adaAttrs).2 " 1").1 =
      Except.error ServiceError.notFound := by
  decide

/-- C4 amended: the service's `Get`/`Update`/`Delete` look the id up verbatim
(after only checking that its trimmed form is non-empty); it is the gRPC
request wrappers `GetUser`/`UpdateUser`/`DeleteUser` that trim the id before
calling the service, so on that path an id differing from a stored record's
id only by surrounding whitespace resolves to the record. -/
theorem claim_C4_amended_wrappers_trim (s : Store) (u : User) (w : String)
    (hid : trimSpace u.id = u.id) (hne : u.id ≠ "")
    (hget : Store.get s u.id = some u) (hw : trimSpace w = u.id) :
    Service.getUser s w = Except.ok u ∧
    (Service.deleteUser s w).1 = Except.ok () ∧
    (∀ attrs, validatePayload (normalizeAttributes attrs) = none →
      (Service.updateUser s w attrs).1 =
        Except.ok ⟨u.id, normalizeAttributes attrs⟩) := by
  have hval : validateIdentifier u.id = none := by
    unfold validateIdentifier
    rw [hid]
    exact if_neg hne
  have hlu : mapLookup u.id s.users = some u := hget
  refine ⟨?_, ?_, ?_⟩
  · unfold Service.getUser
    rw [hw]
    simp only [Service.get, hval, Store.get, hlu]
  · unfold Service.deleteUser
    rw [hw]
    simp only [Service.delete, hval, Store.delete, hlu]
  · intro attrs hp
    unfold Service.updateUser
    rw [hw]
    simp only [Service.update, hval, hp, Store.update, hlu, cloneAttributes]

/-- Witness for the amended C4: record "1" stored, wrappers called with " 1".
-/
theorem claim_C4_witness :
    Service.getUser (Service.create Store.emptyStore adaAttrs).2 " 1" =
      Except.ok ⟨"1", adaAttrs⟩ ∧
    (Service.deleteUser (Service.create Store.emptyStore adaAttrs).2 " 1").1 =
      Except.ok () ∧
    (Service.updateUser (Service.create Store.emptyStore adaAttrs).2 " 1" graceAttrs).1 =
      Except.ok ⟨"1", normalizeAttributes graceAttrs⟩ := by
  have h := claim_C4_amended_wrappers_trim (Service.create Store.emptyStore adaAttrs).2
    ⟨"1", adaAttrs⟩ " 1" (by decide) (by decide) (by decide) (by decide)
  exact ⟨h.1, h.2.1, h.2.2 graceAttrs (by decide)⟩

/-- Exact characterization of `validatePayload`. -/
theorem validatePayload_some_iff (a : Attributes) (e : ServiceError) :
    validatePayload a = some e ↔
      ((a.name = "" ∧ e = .invalidInput "name is required") ∨
       (a.name ≠ "" ∧ (a.email = "" ∨ containsAtSign a.email = false) ∧
         e = .invalidInput "email must contain '@'")) := by
  unfold validatePayload
  by_cases h1 : a.name = ""
  · rw [if_pos h1]
    constructor
    · intro h
      exact Or.inl ⟨h1, (Option.some_inj.mp h).symm⟩
    · rintro (⟨_, he⟩ | ⟨hne, _, _⟩)
      · rw [he]
      · exact absurd h1 hne
  · rw [if_neg h1]
    by_cases h2 : a.email = "" ∨ containsAtSign a.email = false
    · rw [if_pos h2]
      constructor
      · intro h
        exact Or.inr ⟨h1, h2, (Option.some_inj.mp h).symm⟩
      · rintro (⟨ha, _⟩ | ⟨_, _, he⟩)
        · exact absurd ha h1
        · rw [he]
    · rw [if_neg h2]
      constructor
      · intro h
        exact Option.noConfusion h
      · rintro (⟨ha, _⟩ | ⟨_, hb, _⟩)
        · exact absurd ha h1
        · exact absurd hb h2

/-- The error component of `Service.create` is exactly a payload-validation
failure on the normalized bundle. -/
theorem create_error_iff (s : Store) (attrs : Attributes) (e : ServiceError) :
    (Service.create s attrs).1 = Except.error e ↔
      validatePayload (normalizeAttributes attrs) = some e := by
  cases hv : validatePayload (normalizeAttributes attrs) with
  | none => simp [Service.create, hv]
  | some e0 => simp [Service.create, hv, eq_comm]

/-- C5: service validation fails with InvalidInput exactly as specified —
for `Create` (and the payload part of `Update`), a name empty after
normalization ("name is required") or an email empty or lacking '@' after
normalization ("email must contain '@'"); for `Get`/`Update`/`Delete`, an id
that is empty after trimming ("id is required"); and `Create` cannot fail for
any other reason. -/
theorem claim_C5_validation_exact :
    (∀ s attrs e, (Service.create s attrs).1 = Except.error e ↔
      (((normalizeAttributes attrs).name = "" ∧
          e = ServiceError.invalidInput "name is required") ∨
       ((normalizeAttributes attrs).name ≠ "" ∧
          ((normalizeAttributes attrs).email = "" ∨
            containsAtSign (normalizeAttributes attrs).email = false) ∧
          e = ServiceError.invalidInput "email must contain '@'"))) ∧
    (∀ s id m, Service.get s id = Except.error (ServiceError.invalidInput m) ↔
      (trimSpace id = "" ∧ m = "id is required")) ∧
    (∀ s id attrs m,
      (Service.update s id attrs).1 = Except.error (ServiceError.invalidInput m) ↔
      ((trimSpace id = "" ∧ m = "id is required") ∨
       (trimSpace id ≠ "" ∧
         (((normalizeAttributes attrs).name = "" ∧ m = "name is required") ∨
          ((normalizeAttributes attrs).name ≠ "" ∧
            ((normalizeAttributes attrs).email = "" ∨
              containsAtSign (normalizeAttributes attrs).email = false) ∧
            m = "email must contain '@'"))))) ∧
    (∀ s id m, (Service.delete s id).1 = Except.error (ServiceError.invalidInput m) ↔
      (trimSpace id = "" ∧ m = "id is required")) := by
  refine ⟨?_, ?_, ?_, ?_⟩
  · intro s attrs e
    rw [create_error_iff, validatePayload_some_iff]
  · intro s id m
    by_cases hid : trimSpace id = ""
    · have hvi : validateIdentifier id = some (.invalidInput "id is required") := by
        unfold validateIdentifier; rw [if_pos hid]
      simp [Service.get, hvi, hid, eq_comm]
    · have hvi : validateIdentifier id = none := by
        unfold validateIdentifier; rw [if_neg hid]
      cases hl : Store.get s id with
      | none => simp [Service.get, hvi, hl, hid]
      | some u => simp [Service.get, hvi, hl, hid]
  · intro s id attrs m
    by_cases hid : trimSpace id = ""
    · have hvi : validateIdentifier id = some (.invalidInput "id is required") := by
        unfold validateIdentifier; rw [if_pos hid]
      have hupd : (Service.update s id attrs).1 =
          Except.error (.invalidInput "id is required") := by
        unfold Service.update; rw [hvi]
      rw [hupd]
      constructor
      · intro heq
        have hm : "id is required" = m := by
          simpa [Except.error.injEq, ServiceError.invalidInput.injEq] using heq
        exact Or.inl ⟨hid, hm.symm⟩
      · rintro (⟨_, hm⟩ | ⟨hcon, _⟩)
        · rw [hm]
        · exact absurd hid hcon
    · have hvi : validateIdentifier id = none := by
        unfold validateIdentifier; rw [if_neg hid]
      cases hv : validatePayload (normalizeAttributes attrs) with
      | none =>
        have hfalse : ∀ m2,
            ((normalizeAttributes attrs).name = "" ∧ m2 = "name is required") ∨
              ((normalizeAttributes attrs).name ≠ "" ∧
                ((normalizeAttributes attrs).email = "" ∨
                  containsAtSign (normalizeAttributes attrs).email = false) ∧
                m2 = "email must contain '@'") → False := by
          rintro m2 (⟨ha, _⟩ | ⟨ha, hb, _⟩)
          · have : validatePayload (normalizeAttributes attrs) =
                some (ServiceError.invalidInput "name is required") :=
              (validatePayload_some_iff _ _).mpr (Or.inl ⟨ha, rfl⟩)
            rw [hv] at this; exact absurd this (by simp)
          · have : validatePayload (normalizeAttributes attrs) =
                some (ServiceError.invalidInput "email must contain '@'") :=
              (validatePayload_some_iff _ _).mpr (Or.inr ⟨ha, hb, rfl⟩)
            rw [hv] at this; exact absurd this (by simp)
        rcases hres : Store.update s id (normalizeAttributes attrs) with ⟨r, s2⟩
        cases r with
        | none =>
          simp only [Service.update, hvi, hv, hres]
          constructor
          · intro hcon; exact absurd hcon (by simp)
          · rintro (⟨h1, _⟩ | ⟨_, h2⟩)
            · exact absurd h1 hid
            · exact absurd h2 (fun hh => hfalse m hh)
        | some u =>
          simp only [Service.update, hvi, hv, hres]
          constructor
          · intro hcon; exact absurd hcon (by simp)
          · rintro (⟨h1, _⟩ | ⟨_, h2⟩)
            · exact absurd h1 hid
            · exact absurd h2 (fun hh => hfalse m hh)
      | some e0 =>
        simp only [Service.update, hvi, hv]
        have hchar := (validatePayload_some_iff (normalizeAttributes attrs) e0).mp hv
        constructor
        · intro heq
          have he0 : e0 = ServiceError.invalidInput m := by
            simpa [Except.error.injEq] using heq
          refine Or.inr ⟨hid, ?_⟩
          rcases hchar with ⟨h1, h2⟩ | ⟨h1, h2, h3⟩
          · refine Or.inl ⟨h1, ?_⟩
            rw [h2] at he0
            simpa [ServiceError.invalidInput.injEq, eq_comm] using he0
          · refine Or.inr ⟨h1, h2, ?_⟩
            rw [h3] at he0
            simpa [ServiceError.invalidInput.injEq, eq_comm] using he0
        · rintro (⟨h1, _⟩ | ⟨_, h2⟩)
          · exact absurd h1 hid
          · rcases h2 with ⟨h2a, h2b⟩ | ⟨h2a, h2b, h2c⟩
            · rcases hchar with ⟨_, hc2⟩ | ⟨hc1, _, _⟩
              · rw [hc2, h2b]
              · exact absurd h2a hc1
            · rcases hchar with ⟨hc1, _⟩ | ⟨_, _, hc3⟩
              · exact absurd hc1 h2a
              · rw [hc3, h2c]
  · intro s id m
    by_cases hid : trimSpace id = ""
    · have hvi : validateIdentifier id = some (.invalidInput "id is required") := by
        unfold validateIdentifier; rw [if_pos hid]
      simp [Service.delete, hvi, hid, eq_comm]
    · have hvi : validateIdentifier id = none := by
        unfold validateIdentifier; rw [if_neg hid]
      rcases hres : Store.delete s id with ⟨r, s2⟩
      cases r <;> simp [Service.delete, hvi, hres, hid]

/-- C6: the store's `Update` on an absent identifier (never created or
already deleted) fails with NotFound (`none`) and leaves the store completely
unchanged; on an existing identifier it replaces the stored attribute bundle
wholesale, returns the updated record with the same identifier, and touches
no other record and not the id counter. -/
theorem claim_C6_update_semantics (s : Store) (id : String) (attrs : Attributes) :
    (Store.get s id = none → Store.update s id attrs = (none, s)) ∧
    (∀ u0, Store.get s id = some u0 →
      (Store.update s id attrs).1 = some ⟨id, cloneAttributes attrs⟩ ∧
      Store.get (Store.update s id attrs).2 id = some ⟨id, cloneAttributes attrs⟩ ∧
      (∀ id2, id2 ≠ id →
        Store.get (Store.update s id attrs).2 id2 = Store.get s id2) ∧
      (Store.update s id attrs).2.nextID = s.nextID) := by
  constructor
  · intro h
    unfold Store.update
    rw [show mapLookup id s.users = none from h]
  · intro u0 h
    have hl : mapLookup id s.users = some u0 := h
    have hs2 : Store.update s id attrs =
        (some ⟨id, cloneAttributes attrs⟩,
          ⟨mapInsert ⟨id, cloneAttributes attrs⟩ s.users, s.nextID⟩) := by
      unfold Store.update; rw [hl]
    rw [hs2]
    exact ⟨rfl, mapLookup_insert_self ⟨id, cloneAttributes attrs⟩ s.users,
      fun id2 hne => mapLookup_insert_ne ⟨id, cloneAttributes attrs⟩ id2 s.users hne,
      rfl⟩

/-- Witness for C6: update of the absent id "2" versus the present id "1" in
a one-record store. -/
theorem claim_C6_witness :
    Store.update (Store.emptyStore.create adaAttrs).2 "2" graceAttrs =
      (none, (Store.emptyStore.create adaAttrs).2) ∧
    (Store.update (Store.emptyStore.create adaAttrs).2 "1" graceAttrs).1 =
      some ⟨"1", cloneAttributes graceAttrs⟩ ∧
    Store.get (Store.update (Store.emptyStore.create adaAttrs).2 "1" graceAttrs).2 "1" =
      some ⟨"1", cloneAttributes graceAttrs⟩ := by
  refine ⟨(claim_C6_update_semantics _ "2" graceAttrs).1 (by decide), ?_, ?_⟩
  · exact ((claim_C6_update_semantics _ "1" graceAttrs).2 ⟨"1", adaAttrs⟩ (by decide)).1
  · exact ((claim_C6_update_semantics _ "1" graceAttrs).2 ⟨"1", adaAttrs⟩ (by decide)).2.1

/-- C7: the store's `Delete` returns whether a record existed and was
removed; deleting an absent id is not an error, reports `false` and changes
nothing; after a successful delete the record is gone, everything else is
untouched, and a second delete of the same id reports `false` and changes
nothing (idempotence). -/
theorem claim_C7_delete_semantics (s : Store) (id : String)
    (hnd : idsNodup s.users) :
    (Store.get s id = none → Store.delete s id = (false, s)) ∧
    (∀ u0, Store.get s id = some u0 →
      (Store.delete s id).1 = true ∧
      Store.get (Store.delete s id).2 id = none ∧
      (∀ id2, id2 ≠ id →
        Store.get (Store.delete s id).2 id2 = Store.get s id2) ∧
      (Store.delete s id).2.nextID = s.nextID ∧
      Store.delete (Store.delete s id).2 id = (false, (Store.delete s id).2)) := by
  constructor
  · intro h
    unfold Store.delete
    rw [show mapLookup id s.users = none from h]
  · intro u0 h
    have hl : mapLookup id s.users = some u0 := h
    have hd : Store.delete s id = (true, ⟨mapErase id s.users, s.nextID⟩) := by
      unfold Store.delete; rw [hl]
    have herase : mapLookup id (mapErase id s.users) = none :=
      mapLookup_erase_self id s.users hnd
    rw [hd]
    refine ⟨rfl, herase,
      fun id2 hne => mapLookup_erase_ne id id2 s.users hne, rfl, ?_⟩
    unfold Store.delete
    rw [show mapLookup id (⟨mapErase id s.users, s.nextID⟩ : Store).users = none
      from herase]

/-- Witness for C7: delete of the absent id "2", then delete of the present
id "1" followed by a second delete of "1". -/
theorem claim_C7_witness :
    Store.delete (Store.emptyStore.create adaAttrs).2 "2" =
      (false, (Store.emptyStore.create adaAttrs).2) ∧
    (Store.delete (Store.emptyStore.create adaAttrs).2 "1").1 = true ∧
    Store.get (Store.delete (Store.emptyStore.create adaAttrs).2 "1").2 "1" = none ∧
    Store.delete (Store.delete (Store.emptyStore.create adaAttrs).2 "1").2 "1" =
      (false, (Store.delete (Store.emptyStore.create adaAttrs).2 "1").2) := by
  refine ⟨(claim_C7_delete_semantics _ "2" (by decide)).1 (by decide), ?_, ?_, ?_⟩
  · exact ((claim_C7_delete_semantics _ "1" (by decide)).2 ⟨"1", adaAttrs⟩ (by decide)).1
  · exact ((claim_C7_delete_semantics _ "1" (by decide)).2 ⟨"1", adaAttrs⟩ (by decide)).2.1
  · exact ((claim_C7_delete_semantics _ "1" (by decide)).2 ⟨"1", adaAttrs⟩
      (by decide)).2.2.2.2

/-!
Heap model of slice aliasing.  Go slice values (`Tags []string`,
`Avatar []byte`) are pointers into backing arrays; struct assignment copies
the pointer, not the array.  To settle the defensive-copy claim the store is
re-modelled with an explicit heap of backing arrays and slice references.
-/

/-- The heap of slice backing arrays: string arrays (for `[]string`) and
byte arrays (for `[]byte`), addressed by allocation index. -/
structure GoHeap where
  strArrs : List (List String)
  byteArrs : List (List Nat)
deriving DecidableEq, Repr

/-- A Go slice value: `nil`, or a reference to a backing array.  (Offsets
and capacities are omitted: this program only ever uses whole arrays.) -/
inductive SliceRef where
  | nil
  | ref (i : Nat)
deriving DecidableEq, Repr

/-- The contents a `[]string` slice value denotes. -/
def readStrArr (h : GoHeap) : SliceRef → List String
  | .nil => []
  | .ref i => h.strArrs.getD i []

/-- The contents a `[]byte` slice value denotes. -/
def readByteArr (h : GoHeap) : SliceRef → List Nat
  | .nil => []
  | .ref i => h.byteArrs.getD i []

/-- Allocation of a fresh `[]string` backing array, as performed by
`append([]string(nil), xs...)`. -/
def allocStrArr (h : GoHeap) (v : List String) : SliceRef × GoHeap :=
  (.ref h.strArrs.length, ⟨h.strArrs ++ [v], h.byteArrs⟩)

/-- Allocation of a fresh `[]byte` backing array, as performed by
`append([]byte(nil), xs...)`. -/
def allocByteArr (h : GoHeap) (v : List Nat) : SliceRef × GoHeap :=
  (.ref h.byteArrs.length, ⟨h.strArrs, h.byteArrs ++ [v]⟩)

/-- An element write `xs[k] = x` through a `[]string` slice value. -/
def writeStrArr (h : GoHeap) (r : SliceRef) (k : Nat) (x : String) : GoHeap :=
  match r with
  | .nil => h
  | .ref i => ⟨h.strArrs.set i ((h.strArrs.getD i []).set k x), h.byteArrs⟩

/-- An element write `xs[k] = x` through a `[]byte` slice value. -/
def writeByteArr (h : GoHeap) (r : SliceRef) (k : Nat) (x : Nat) : GoHeap :=
  match r with
  | .nil => h
  | .ref i => ⟨h.strArrs, h.byteArrs.set i ((h.byteArrs.getD i []).set k x)⟩

/-- The attribute bundle in the heap model: tag and avatar slices are
references. -/
structure AttributesH where
  name : String
  email : String
  phone : String
  address : String
  bio : String
  tags : SliceRef
  avatar : SliceRef
deriving DecidableEq, Repr

/-- A user record in the heap model. -/
structure UserH where
  id : String
  attrs : AttributesH
deriving DecidableEq, Repr

/-- The store in the heap model. -/
structure StoreH where
  users : List UserH
  nextID : Nat
deriving DecidableEq, Repr

/-- Map lookup in the heap model. -/
def mapLookupH (id : String) : List UserH → Option UserH
  | [] => none
  | v :: vs => if v.id = id then some v else mapLookupH id vs

/-- Map write in the heap model. -/
def mapInsertH (u : UserH) : List UserH → List UserH
  | [] => [u]
  | v :: vs => if v.id = u.id then u :: vs else v :: mapInsertH u vs

/-- `cloneAttributes` in the heap model: struct copy (shares both slice
references), then a fresh backing array with equal contents for a non-nil
`Tags` and for a non-nil `Avatar`. -/
def cloneAttributesH (h : GoHeap) (attrs : AttributesH) : AttributesH × GoHeap :=
  let (tagsRef, h1) :=
    match attrs.tags with
    | .nil => (SliceRef.nil, h)
    | .ref i => allocStrArr h (readStrArr h (.ref i))
  let (avatarRef, h2) :=
    match attrs.avatar with
    | .nil => (SliceRef.nil, h1)
    | .ref i => allocByteArr h1 (readByteArr h1 (.ref i))
  ({ attrs with tags := tagsRef, avatar := avatarRef }, h2)

/-- `Store.Create` in the heap model: the stored and the returned record are
the same struct value `u`, sharing the cloned backing arrays. -/
def StoreH.create (s : StoreH) (attrs : AttributesH) (h : GoHeap) :
    UserH × StoreH × GoHeap :=
  let n := s.nextID + 1
  let (ca, h2) := cloneAttributesH h attrs
  let u : UserH := ⟨formatInt n, ca⟩
  (u, ⟨mapInsertH u s.users, n⟩, h2)

/-- `Store.Update` in the heap model. -/
def StoreH.update (s : StoreH) (id : String) (attrs : AttributesH) (h : GoHeap) :
    Option UserH × StoreH × GoHeap :=
  match mapLookupH id s.users with
  | none => (none, s, h)
  | some _ =>
    let (ca, h2) := cloneAttributesH h attrs
    let u : UserH := ⟨id, ca⟩
    (some u, ⟨mapInsertH u s.users, s.nextID⟩, h2)

/-- `Store.Get` in the heap model: returns the stored struct value, slice
references included — no clone on the way out. -/
def StoreH.get (s : StoreH) (id : String) : Option UserH :=
  mapLookupH id s.users

theorem getD_set_ne {α : Type} (l : List α) (i j : Nat) (h : i ≠ j) (v d : α) :
    (l.set i v).getD j d = l.getD j d := by
  induction l generalizing i j with
  | nil => rfl
  | cons a as ih =>
    cases i with
    | zero =>
      cases j with
      | zero => exact absurd rfl h
      | succ jj => rfl
    | succ ii =>
      cases j with
      | zero => rfl
      | succ jj => exact ih ii jj (fun hh => h (by rw [hh]))

theorem getD_append_length {α : Type} (l : List α) (v d : α) :
    (l ++ [v]).getD l.length d = v := by
  induction l with
  | nil => rfl
  | cons a as ih => exact ih

theorem cloneAttributesH_tags_ref (h : GoHeap) (a : AttributesH) (i : Nat)
    (hi : a.tags = SliceRef.ref i) :
    (cloneAttributesH h a).1.tags = SliceRef.ref h.strArrs.length := by
  rcases a with ⟨n, e, p, ad, b, t, av⟩
  cases hi
  cases av <;> rfl

theorem cloneAttributesH_strArrs_of_ref (h : GoHeap) (a : AttributesH) (i : Nat)
    (hi : a.tags = SliceRef.ref i) :
    (cloneAttributesH h a).2.strArrs = h.strArrs ++ [readStrArr h a.tags] := by
  rcases a with ⟨n, e, p, ad, b, t, av⟩
  cases hi
  cases av <;> rfl

theorem cloneAttributesH_avatar_ref (h : GoHeap) (a : AttributesH) (j : Nat)
    (hj : a.avatar = SliceRef.ref j) :
    (cloneAttributesH h a).1.avatar = SliceRef.ref h.byteArrs.length := by
  rcases a with ⟨n, e, p, ad, b, t, av⟩
  cases hj
  cases t <;> rfl

theorem cloneAttributesH_byteArrs_of_ref (h : GoHeap) (a : AttributesH) (j : Nat)
    (hj : a.avatar = SliceRef.ref j) :
    (cloneAttributesH h a).2.byteArrs = h.byteArrs ++ [readByteArr h a.avatar] := by
  rcases a with ⟨n, e, p, ad, b, t, av⟩
  cases hj
  cases t <;> rfl

/-- Writes through the caller's original tag slice cannot reach the clone's
fresh backing array. -/
theorem clone_tags_write_protected (h : GoHeap) (attrs : AttributesH) (i : Nat)
    (hi : attrs.tags = SliceRef.ref i) (hilen : i < h.strArrs.length)
    (k : Nat) (x : String) :
    readStrArr (writeStrArr (cloneAttributesH h attrs).2 attrs.tags k x)
      (cloneAttributesH h attrs).1.tags = readStrArr h attrs.tags := by
  rw [cloneAttributesH_tags_ref h attrs i hi, hi]
  show ((cloneAttributesH h attrs).2.strArrs.set i _).getD h.strArrs.length [] = _
  rw [getD_set_ne _ i h.strArrs.length (by omega) _ _,
    cloneAttributesH_strArrs_of_ref h attrs i hi,
    getD_append_length, hi]

/-- Writes through the caller's original avatar slice cannot reach the
clone's fresh backing array. -/
theorem clone_avatar_write_protected (h : GoHeap) (attrs : AttributesH) (j : Nat)
    (hj : attrs.avatar = SliceRef.ref j) (hjlen : j < h.byteArrs.length)
    (k b : Nat) :
    readByteArr (writeByteArr (cloneAttributesH h attrs).2 attrs.avatar k b)
      (cloneAttributesH h attrs).1.avatar = readByteArr h attrs.avatar := by
  rw [cloneAttributesH_avatar_ref h attrs j hj, hj]
  show ((cloneAttributesH h attrs).2.byteArrs.set j _).getD h.byteArrs.length [] = _
  rw [getD_set_ne _ j h.byteArrs.length (by omega) _ _,
    cloneAttributesH_byteArrs_of_ref h attrs j hj,
    getD_append_length, hj]

/-- Caller-side attribute bundle used by the C8 scenario: its tag slice
points at the caller's own backing array, index 0 of the heap. -/
def demoAttrsH : AttributesH :=
  ⟨"Ada", "ada@example.com", "", "", "", .ref 0, .nil⟩

/-- Heap holding the caller's own tag backing array `["a"]`. -/
def demoHeap : GoHeap :=
  ⟨[["a"]], []⟩

/-- C8 counterexample: the record returned by `Create` and the record stored
in the map are the same struct value, sharing one tag backing array; the
stored tag list reads `["a"]`, and after the caller writes `"evil"` through
the returned record's tag slice it reads `["evil"]` — mutating a returned
tag list does change stored state, so returned bundles are not copies of the
stored data. -/
theorem claim_C8_counterexample :
    StoreH.get (StoreH.create ⟨[], 0⟩ demoAttrsH demoHeap).2.1 "1" =
      some (StoreH.create ⟨[], 0⟩ demoAttrsH demoHeap).1 ∧
    readStrArr (StoreH.create ⟨[], 0⟩ demoAttrsH demoHeap).2.2
      (StoreH.create ⟨[], 0⟩ demoAttrsH demoHeap).1.attrs.tags = ["a"] ∧
    readStrArr
      (writeStrArr (StoreH.create ⟨[], 0⟩ demoAttrsH demoHeap).2.2
        (StoreH.create ⟨[], 0⟩ demoAttrsH demoHeap).1.attrs.tags 0 "evil")
      (StoreH.create ⟨[], 0⟩ demoAttrsH demoHeap).1.attrs.tags = ["evil"] := by
  decide

/-- C8 amended: the store clones attribute data on the way in — `Create` and
`Update` store tag and avatar slices backed by fresh arrays, so a caller
later mutating a previously passed-in tag list or avatar cannot change
stored state.  Records returned by `Create`/`Update`/`Get`/`List`, however,
share their backing arrays with stored state; callers of the full program
receive copies only because the transport layer (`toProto`, JSON rendering)
copies on the way out. -/
theorem claim_C8_amended_input_cloned (s : StoreH) (h : GoHeap)
    (attrs : AttributesH) (i : Nat) (hi : attrs.tags = SliceRef.ref i)
    (hilen : i < h.strArrs.length) (k : Nat) (x : String) :
    readStrArr (writeStrArr (StoreH.create s attrs h).2.2 attrs.tags k x)
      (StoreH.create s attrs h).1.attrs.tags = readStrArr h attrs.tags ∧
    (∀ j, attrs.avatar = SliceRef.ref j → j < h.byteArrs.length → ∀ b : Nat,
      readByteArr (writeByteArr (StoreH.create s attrs h).2.2 attrs.avatar k b)
        (StoreH.create s attrs h).1.attrs.avatar = readByteArr h attrs.avatar) ∧
    (∀ id u0, mapLookupH id s.users = some u0 →
      ∃ u, (StoreH.update s id attrs h).1 = some u ∧
        readStrArr (writeStrArr (StoreH.update s id attrs h).2.2 attrs.tags k x)
          u.attrs.tags = readStrArr h attrs.tags) := by
  refine ⟨?_, ?_, ?_⟩
  · exact clone_tags_write_protected h attrs i hi hilen k x
  · intro j hj hjlen b
    exact clone_avatar_write_protected h attrs j hj hjlen k b
  · intro id u0 hlu
    have hu : StoreH.update s id attrs h =
        (some ⟨id, (cloneAttributesH h attrs).1⟩,
          ⟨mapInsertH ⟨id, (cloneAttributesH h attrs).1⟩ s.users, s.nextID⟩,
          (cloneAttributesH h attrs).2) := by
      unfold StoreH.update; rw [hlu]
    refine ⟨⟨id, (cloneAttributesH h attrs).1⟩, ?_, ?_⟩
    · rw [hu]
    · rw [hu]
      exact clone_tags_write_protected h attrs i hi hilen k x

/-- Witness for the amended C8 at a concrete scenario: tag array at index 0,
avatar array at index 0, and a store holding record "1". -/
theorem claim_C8_witness :
    readStrArr
      (writeStrArr (StoreH.create ⟨[], 0⟩ ⟨"A", "a@b", "", "", "", .ref 0, .ref 0⟩
          ⟨[["a"]], [[7]]⟩).2.2 (SliceRef.ref 0) 0 "evil")
      (StoreH.create ⟨[], 0⟩ ⟨"A", "a@b", "", "", "", .ref 0, .ref 0⟩
          ⟨[["a"]], [[7]]⟩).1.attrs.tags = ["a"] ∧
    readByteArr
      (writeByteArr (StoreH.create ⟨[], 0⟩ ⟨"A", "a@b", "", "", "", .ref 0, .ref 0⟩
          ⟨[["a"]], [[7]]⟩).2.2 (SliceRef.ref 0) 0 9)
      (StoreH.create ⟨[], 0⟩ ⟨"A", "a@b", "", "", "", .ref 0, .ref 0⟩
          ⟨[["a"]], [[7]]⟩).1.attrs.avatar = [7] ∧
    (∃ u, (StoreH.update ⟨[⟨"1", ⟨"A", "a@b", "", "", "", .nil, .nil⟩⟩], 1⟩ "1"
        ⟨"A", "a@b", "", "", "", .ref 0, .ref 0⟩ ⟨[["a"]], [[7]]⟩).1 = some u ∧
      readStrArr
        (writeStrArr (StoreH.update ⟨[⟨"1", ⟨"A", "a@b", "", "", "", .nil, .nil⟩⟩], 1⟩
            "1" ⟨"A", "a@b", "", "", "", .ref 0, .ref 0⟩ ⟨[["a"]], [[7]]⟩).2.2
          (SliceRef.ref 0) 0 "evil")
        u.attrs.tags = ["a"]) := by
  have h := claim_C8_amended_input_cloned ⟨[], 0⟩ ⟨[["a"]], [[7]]⟩
    ⟨"A", "a@b", "", "", "", .ref 0, .ref 0⟩ 0 rfl (by decide) 0 "evil"
  have h2 := claim_C8_amended_input_cloned
    ⟨[⟨"1", ⟨"A", "a@b", "", "", "", .nil, .nil⟩⟩], 1⟩ ⟨[["a"]], [[7]]⟩
    ⟨"A", "a@b", "", "", "", .ref 0, .ref 0⟩ 0 rfl (by decide) 0 "evil"
  exact ⟨h.1, h.2.1 0 rfl (by decide) 9,
    h2.2.2 "1" ⟨"1", ⟨"A", "a@b", "", "", "", .nil, .nil⟩⟩ (by decide)⟩

end GoUser
